import Mathlib

/-!
Shallow embedding of the TLS-RPT extractor (src/index.ts) and proofs about
its decode-and-flatten pipeline.

The embedding covers:
* the aggregate-report data model (the TypeScript interfaces, lines 16-63);
* the flattener `Report.processReport` (lines 91-117) together with the
  mutable `processed` list of the `Report` class (line 76);
* the writer `Report.writeReports` (lines 120-133), modelled as returning
  the list of (filename, record) pairs it persists;
* the filename handling: the extension-stripping regex match in
  `searchIMAP` (lines 236-239) and the index-inserting `String.replace`
  in `writeReports` (line 125);
* the attachment locator `findAttachment` (lines 199-214);
* the decode-chain construction in `searchIMAP` (lines 241-244),
  modelled as the ordered list of stream stages that get piped;
* the per-attachment body handler (lines 235-254), modelled at the level
  of its control flow: the handler ends with an unguarded JSON.parse, so
  a decode or parse failure is an uncaught exception.

JavaScript `Date` values inside the report metadata are modelled as the
strings they were parsed from; JavaScript numbers standing for session
counts are modelled as `Nat`.
-/

namespace TlsRpt

/-! ## Data model (interfaces, src/index.ts lines 16-63) -/

/-- IPolicyDetails (lines 16-21). Field names are the hyphenated JSON keys:
`policy-type`, `policy-string`, `policy-domain`, `mx-host`. The TypeScript
type restricts policyType to "sts" | "tlsa" | "no-policy-found"; the value
is a string at runtime and is modelled as such. -/
structure PolicyDetails where
  policyType : String
  policyString : List String
  policyDomain : String
  mxHost : Option String
deriving DecidableEq, Repr

/-- IPolicySummary (lines 23-26): `total-successful-session-count` and the
optional `total-failure-session-count`. -/
structure PolicySummary where
  successCount : Nat
  failureCount : Option Nat
deriving DecidableEq, Repr

/-- IPolicyFailureDetail (lines 28-33). -/
structure PolicyFailureDetail where
  failedSessionCount : Nat
  receivingMxHostname : String
  resultType : String
  receivingIp : String
deriving DecidableEq, Repr

/-- IPolicy (lines 35-39): `policy`, `summary` and the optional
`failure-details` array. An absent array is `none`; a present (possibly
empty) array is `some`. -/
structure Policy where
  policy : PolicyDetails
  summary : PolicySummary
  failureDetails : Option (List PolicyFailureDetail)
deriving DecidableEq, Repr

/-- IReportMetadata (lines 41-49): `organization-name`, `date-range`
(start and end datetimes), `contact-info`, `report-id`. -/
structure ReportMetadata where
  organizationName : String
  dateRangeStart : String
  dateRangeEnd : String
  contactInfo : String
  reportId : String
deriving DecidableEq, Repr

/-- IReport (lines 51-53): the metadata fields together with `policies`. -/
structure IReport where
  metadata : ReportMetadata
  policies : List Policy
deriving DecidableEq, Repr

/-- IProcessedPolicy (lines 55-59): one policy with at most one failure
detail. The runtime value of `summary` is the same (mutated) summary
object, so the field keeps type `PolicySummary`; the TypeScript `Omit` is
a static-only restriction. -/
structure ProcessedPolicy where
  policy : PolicyDetails
  summary : PolicySummary
  failureDetails : Option PolicyFailureDetail
deriving DecidableEq, Repr

/-- IProcessedReport (lines 61-63): the object pushed by `processReport`,
a `policies` field next to the spread metadata fields. -/
structure ProcessedReport where
  policies : ProcessedPolicy
  metadata : ReportMetadata
deriving DecidableEq, Repr

/-! ## The Report class state (src/index.ts lines 65-88) -/

/-- The fields of a `Report` object: `metadata`, `policies`, `filename`
and the accumulating `processed` list (line 76). -/
structure ReportState where
  metadata : ReportMetadata
  policies : List Policy
  filename : String
  processed : List ProcessedReport
deriving DecidableEq, Repr

/-- The constructor (lines 78-88): destructures the parsed report into
metadata and policies, stores the filename, leaves `processed` empty. -/
def mkReport (r : IReport) (filename : String) : ReportState :=
  ⟨r.metadata, r.policies, filename, []⟩

/-! ## The flattener `processReport` (src/index.ts lines 91-117) -/

/-- The statement `delete policy.summary["total-failure-session-count"]`
(line 93), acting on the summary value. -/
def deleteSummary (s : PolicySummary) : PolicySummary :=
  ⟨s.successCount, none⟩

/-- The same deletion seen on the whole policy object. -/
def deleteFailureCount (p : Policy) : Policy :=
  ⟨p.policy, deleteSummary p.summary, p.failureDetails⟩

/-- The records pushed for one policy (lines 93-115). The summary field
has already been mutated by the delete when the records are built, hence
`deleteSummary`. The branch mirrors the JavaScript truthiness test
`if (policy["failure-details"])`: a present array (empty included) takes
the forEach branch, an absent one takes the else branch. -/
def policyRecords (meta : ReportMetadata) (p : Policy) : List ProcessedReport :=
  match p.failureDetails with
  | some ds => ds.map (fun d => ⟨⟨p.policy, deleteSummary p.summary, some d⟩, meta⟩)
  | none => [⟨⟨p.policy, deleteSummary p.summary, none⟩, meta⟩]

/-- `processReport` (lines 91-117): for each policy, delete the failure
count from its summary (a persistent mutation of `this.policies`), then
push one record per failure detail, or a single detail-less record when
the array is absent. Records are appended to the persistent
`this.processed` list, which is never cleared. -/
def processReport (st : ReportState) : ReportState :=
  { st with
    policies := st.policies.map deleteFailureCount,
    processed := st.processed ++ st.policies.flatMap (policyRecords st.metadata) }

/-! ## Filenames (src/index.ts lines 125 and 236-239) -/

/-- Character class of the regex `[\w\d_-]` used on line 125: ASCII
letters, digits, underscore and hyphen. -/
def isWordChar (c : Char) : Bool :=
  c.isAlphanum || c == '_' || c == '-'

/-- The maximal run of word characters at the end of the string,
in reverse order. -/
def extRevOf (s : String) : List Char :=
  s.data.reverse.takeWhile isWordChar

/-- The remaining characters (still reversed) once the trailing word-char
run is removed. -/
def restRevOf (s : String) : List Char :=
  s.data.reverse.drop (extRevOf s).length

/-- Whether the regex `(\.[\w\d_-]+)$` of line 125 matches: the string
ends in a dot followed by a nonempty run of word characters. -/
def hasWordExt (s : String) : Bool :=
  !(extRevOf s).isEmpty && ((restRevOf s).head? == some '.')

/-- The `String.replace` on line 125:
`this.filename.replace(/(\.[\w\d_-]+)$/i, "-index$1")`. When the string
ends in `.ext` with `ext` a nonempty run of word characters, the
replacement turns it into `-<i>.ext`; otherwise the string is returned
unchanged (and in particular no index is inserted at all). -/
def replaceIdx (s : String) (i : Nat) : String :=
  if (extRevOf s).isEmpty then s
  else if (restRevOf s).head? == some '.' then
    (restRevOf s).tail.reverse.asString ++ "-" ++ Nat.repr i ++ "."
      ++ (extRevOf s).reverse.asString
  else s

/-- The filename extraction on lines 236-239:
`filename.match(/(.+?)(\.[^.]*$|$)/)[1]`. Group 1 is everything before
the last dot, unless that dot is the first character (or there is no
dot), in which case the whole string is kept. -/
def stripExt (s : String) : String :=
  let afterRev := s.data.reverse.takeWhile (fun c => !(c == '.'))
  if afterRev.length == s.data.length then s
  else if s.data.length - afterRev.length - 1 == 0 then s
  else (s.data.take (s.data.length - afterRev.length - 1)).asString

/-- `writeReports` (lines 120-133): first re-runs `processReport`, then
for each (index, record) of the accumulated `processed` list issues one
file write under the name `replaceIdx filename index` (the constant
directory prefix is omitted). The returned pair is the mutated object
state and the list of issued writes. -/
def writeReports (st : ReportState) : ReportState × List (String × ProcessedReport) :=
  let st2 := processReport st
  (st2, st2.processed.enum.map (fun p => (replaceIdx st2.filename p.1, p.2)))

/-! ## Attachment locator `findAttachment` (src/index.ts lines 199-214) -/

/-- The disposition object of a MIME part; only its `type` field is
inspected by `findAttachment`. -/
structure Disposition where
  dtype : String
deriving DecidableEq, Repr

/-- A leaf MIME body part as delivered by the mail client: a part id and
an optional disposition. -/
structure MimePart where
  partID : Nat
  disposition : Option Disposition
deriving DecidableEq, Repr

/-- A node of the parsed MIME structure tree: either a leaf part object
or a nested sequence (a JavaScript array). -/
inductive StructNode where
  | part (p : MimePart)
  | seq (children : List StructNode)

/-- JavaScript `toUpperCase`, on its ASCII range as exercised by
disposition types; written as a map over the character list so that
proofs can evaluate it. -/
def jsToUpper (s : String) : String :=
  (s.data.map Char.toUpper).asString

/-- JavaScript `toLowerCase`, same remarks as `jsToUpper`. -/
def jsToLower (s : String) : String :=
  (s.data.map Char.toLower).asString

/-- JavaScript `Array.prototype.indexOf` on a string list: the index of
the first occurrence, or -1. -/
def jsIndexOf (l : List String) (x : String) : Int :=
  match l.findIdx? (fun y => y == x) with
  | some i => (i : Int)
  | none => -1

/-- The condition on lines 204-207: `part.disposition &&
["INLINE", "ATTACHMENT"].indexOf(part.disposition.type.toUpperCase())`.
The indexOf result is used directly as a truthiness test, so the part is
kept exactly when it has a disposition and the index is nonzero, which
holds for "ATTACHMENT" (index 1) and for every type outside the list
(index -1), but not for "INLINE" (index 0). -/
def keepPart (p : MimePart) : Bool :=
  match p.disposition with
  | none => false
  | some d => !(jsIndexOf ["INLINE", "ATTACHMENT"] (jsToUpper d.dtype) == 0)

/-- `findAttachment` (lines 199-214): iterate over the top-level
`attrs.struct` array; skip elements that are not arrays; for each array
element iterate over its items and keep those passing `keepPart`. Items
that are themselves arrays have no `disposition` property and fail the
test; no recursion into them takes place. An undefined `struct` (the
optional chaining on line 201) yields no attachments. -/
def findAttachment (struct : Option (List StructNode)) : List MimePart :=
  match struct with
  | none => []
  | some l =>
      l.flatMap (fun el =>
        match el with
        | StructNode.part _ => []
        | StructNode.seq children =>
            children.filterMap (fun c =>
              match c with
              | StructNode.seq _ => none
              | StructNode.part p => if keepPart p then some p else none))

/-- The depth-two leaf parts under one top-level node, in structure
order: for a top-level sub-sequence its immediate part items, for a
top-level leaf nothing. This is the set of candidates the loop of
`findAttachment` ever examines; it is used to characterise the output of
`findAttachment` as exactly these candidates filtered by `keepPart`. -/
def seqLeafParts : StructNode → List MimePart
  | StructNode.part _ => []
  | StructNode.seq cs =>
      cs.filterMap (fun c =>
        match c with
        | StructNode.part p => some p
        | StructNode.seq _ => none)

/-! ## Decode chain (src/index.ts lines 241-244) -/

/-- The two stream transforms that may be piped in front of the body
stream. -/
inductive Stage where
  | base64Decode
  | gunzip
deriving DecidableEq, Repr

/-- Whether the character list `s` starts with the character list `pat`. -/
def startsWithChars : List Char → List Char → Bool
  | _, [] => true
  | [], _ :: _ => false
  | c :: cs, p :: ps => c == p && startsWithChars cs ps

/-- Whether `pat` occurs as a contiguous run inside `s`. -/
def hasSubChars : List Char → List Char → Bool
  | [], pat => pat.isEmpty
  | c :: cs, pat => startsWithChars (c :: cs) pat || hasSubChars cs pat

/-- JavaScript `s.search(/pat/) !== -1` for a literal pattern: a
case-sensitive substring test. -/
def hasSubstr (s pat : String) : Bool :=
  hasSubChars s.data pat.data

/-- The decode-chain construction (lines 241-244): pipe a base64 decoder
when `attachment.encoding.toLowerCase() === "base64"`, then pipe a gunzip
stream when `attachment.subtype.search(/gzip/) !== -1` (note: the regex
has no i flag, so this test is case-sensitive). The list order is the
pipe order. -/
def buildStages (encoding subtype : String) : List Stage :=
  (if jsToLower encoding == "base64" then [Stage.base64Decode] else []) ++
    (if hasSubstr subtype "gzip" then [Stage.gunzip] else [])

/-- Stated from the spec, for comparison with the source: the condition
the spec gives for the gzip stage, a case-insensitive substring test. -/
def specGzipCondition (subtype : String) : Bool :=
  hasSubstr (jsToLower subtype) "gzip"

/-! ## Per-attachment body handler (src/index.ts lines 234-254) -/

/-- One fetched attachment body, as seen by the handler on lines
235-254: the disposition filename parameter, and the outcome of running
the external decode stages and JSON.parse over the streamed bytes (the
decoding and parsing themselves are library code outside this
repository; their result, success or thrown error, is the field). -/
structure FetchedAttachment where
  filename : String
  decoded : Except String IReport

/-- The body handler for one attachment (lines 235-254): strip the
filename extension, then build a `Report` object from the parse result.
`JSON.parse` on line 252 is called with no try/catch and the streams
carry no error handler, so a failure is an uncaught exception. -/
def handleBody (a : FetchedAttachment) : Except String ReportState :=
  match a.decoded with
  | Except.error e => Except.error e
  | Except.ok r => Except.ok (mkReport r (stripExt a.filename))

/-- The processing of the attachments of one message (the forEach on
line 229 driving the handlers): handlers run in sequence, and an
uncaught exception in one handler terminates the process, so the
handlers of the remaining attachments never run. -/
def processMessageAttachments : List FetchedAttachment → Except String (List ReportState)
  | [] => Except.ok []
  | a :: rest =>
      match handleBody a with
      | Except.error e => Except.error e
      | Except.ok st =>
          match processMessageAttachments rest with
          | Except.error e => Except.error e
          | Except.ok sts => Except.ok (st :: sts)

/-- Stated from the spec, for comparison with the source: failure
isolation, where each failing attachment yields nothing and the others
still produce their Report objects. -/
def specIsolatedResults (atts : List FetchedAttachment) : List ReportState :=
  atts.filterMap (fun a =>
    match handleBody a with
    | Except.error _ => none
    | Except.ok st => some st)

/-! ## Sample values used by witnesses and counterexamples -/

/-- A sample report metadata value. -/
def sampleMeta : ReportMetadata :=
  ⟨"google.com", "2024-01-01T00:00:00Z", "2024-01-01T23:59:59Z",
   "smtp-tls-reporting@google.com", "2024-01-01T00:00:00Z_example.com"⟩

/-- A sample policy-details value. -/
def samplePD : PolicyDetails :=
  ⟨"sts", ["version: STSv1", "mode: testing"], "example.com", some "mx.example.com"⟩

/-- A sample summary carrying a failure count. -/
def sampleSummary : PolicySummary := ⟨5, some 2⟩

/-- A sample failure detail. -/
def sampleDetail : PolicyFailureDetail :=
  ⟨2, "mx.example.com", "certificate-expired", "192.0.2.1"⟩

/-- A sample parsed aggregate report with one policy and one failure
detail. -/
def sampleReport : IReport :=
  ⟨sampleMeta, [⟨samplePD, sampleSummary, some [sampleDetail]⟩]⟩

/-- The flattened record the sample report produces. -/
def sampleProcessed : ProcessedReport :=
  ⟨⟨samplePD, ⟨5, none⟩, some sampleDetail⟩, sampleMeta⟩

/-- A part marked as an attachment, used in locator examples. -/
def attachPart : MimePart := ⟨4, some ⟨"attachment"⟩⟩

/-- An attachment whose decode/parse stage throws. -/
def badAttachment : FetchedAttachment :=
  ⟨"bad.json", Except.error "unexpected token in JSON"⟩

/-- An attachment that decodes and parses to the sample report. -/
def goodAttachment : FetchedAttachment :=
  ⟨"good.json", Except.ok sampleReport⟩

/-! ## Decimal-representation helpers

`replaceIdx` embeds the record index through `Nat.repr`; injectivity of
the produced filenames rests on the decimal representation being
decodable, proved here from the core `Nat.toDigitsCore`. -/

/-- The numeric value of a decimal digit character. -/
def charVal (c : Char) : Nat := c.toNat - 48

/-- Decode a digit string back into the number it denotes. -/
def decodeDigits (l : List Char) : Nat :=
  l.foldl (fun a c => 10 * a + charVal c) 0

/-! ## Helper lemmas about the flattener -/

/-- One call of `processReport` appends, for each policy in order, that
policy's records to the `processed` accumulator. -/
theorem processReport_processed (st : ReportState) :
    (processReport st).processed
      = st.processed ++ st.policies.flatMap (policyRecords st.metadata) := rfl

/-- The number of records one policy contributes. -/
theorem policyRecords_length (m : ReportMetadata) (p : Policy) :
    (policyRecords m p).length
      = match p.failureDetails with
        | some ds => ds.length
        | none => 1 := by
  cases h : p.failureDetails <;> simp [policyRecords, h]

/-- Deleting the failure count twice equals deleting it once. -/
theorem deleteSummary_idem (s : PolicySummary) :
    deleteSummary (deleteSummary s) = deleteSummary s := rfl

/-- The records of a policy are unchanged by a prior deletion of its
summary failure count. -/
theorem policyRecords_delete (m : ReportMetadata) (p : Policy) :
    policyRecords m (deleteFailureCount p) = policyRecords m p := by
  cases hd : p.failureDetails <;>
    simp [policyRecords, deleteFailureCount, deleteSummary, hd]

/-- Closed form of iterating `processReport` k times on a fresh report:
the policies get their summaries stripped on the first call and then stay
fixed, while `processed` accumulates one copy of the record list per
call. -/
theorem processReport_iterate (r : IReport) (fn : String) (k : Nat) :
    processReport^[k] (mkReport r fn)
      = ⟨r.metadata,
         (if k = 0 then r.policies else r.policies.map deleteFailureCount),
         fn,
         (List.replicate k (r.policies.flatMap (policyRecords r.metadata))).flatten⟩ := by
  induction k with
  | zero => rfl
  | succ n ih =>
      rw [Function.iterate_succ_apply', ih]
      cases n with
      | zero => simp [processReport]
      | succ m =>
          simp only [Nat.succ_ne_zero, if_false, processReport]
          congr 1
          · rw [List.map_map]
            have : deleteFailureCount ∘ deleteFailureCount = deleteFailureCount := by
              funext p
              simp [deleteFailureCount, deleteSummary]
            rw [this]
          · rw [List.replicate_succ' (m + 1), List.flatten_append, List.flatMap_map]
            have : (fun p => policyRecords r.metadata (deleteFailureCount p))
                = policyRecords r.metadata := by
              funext p
              exact policyRecords_delete _ _
            rw [this]
            simp

/-! ## Helper lemmas about decimal representations -/

/-- The value of the digit character of a digit below ten. -/
theorem digitChar_val : ∀ d : Nat, d < 10 → charVal (Nat.digitChar d) = d := by decide

/-- The digit character of a digit below ten satisfies isDigit. -/
theorem digitChar_isDigit : ∀ d : Nat, d < 10 → (Nat.digitChar d).isDigit = true := by decide

/-- The accumulator of `Nat.toDigitsCore` is appended to the digits. -/
theorem toDigitsCore_append (fuel : Nat) :
    ∀ (n : Nat) (ds : List Char),
      Nat.toDigitsCore 10 fuel n ds = Nat.toDigitsCore 10 fuel n [] ++ ds := by
  induction fuel with
  | zero => intro n ds; rfl
  | succ f ih =>
      intro n ds
      simp only [Nat.toDigitsCore]
      by_cases h : n / 10 = 0
      · simp [h]
      · simp only [h, if_false]
        rw [ih (n / 10) (Nat.digitChar (n % 10) :: ds), ih (n / 10) [Nat.digitChar (n % 10)]]
        simp

/-- Decoding the digits produced by `Nat.toDigitsCore` recovers the
number, for sufficient fuel. -/
theorem toDigitsCore_decode (fuel : Nat) :
    ∀ n : Nat, n < fuel → decodeDigits (Nat.toDigitsCore 10 fuel n []) = n := by
  induction fuel with
  | zero => intro n h; exact absurd h (Nat.not_lt_zero n)
  | succ f ih =>
      intro n h
      simp only [Nat.toDigitsCore]
      by_cases h0 : n / 10 = 0
      · simp only [h0, if_true]
        have hn : n < 10 := (Nat.div_eq_zero_iff (by norm_num)).mp h0
        show 10 * 0 + charVal (Nat.digitChar (n % 10)) = n
        rw [Nat.mod_eq_of_lt hn, digitChar_val n hn]
        omega
      · simp only [h0, if_false]
        rw [toDigitsCore_append]
        show List.foldl (fun a c => 10 * a + charVal c) 0
          (Nat.toDigitsCore 10 f (n / 10) [] ++ [Nat.digitChar (n % 10)]) = n
        rw [List.foldl_append]
        have hpos : 0 < n := by
          rcases Nat.eq_zero_or_pos n with hz | hp
          · rw [hz] at h0; exact absurd rfl h0
          · exact hp
        have hdiv : n / 10 < f := by
          have hlt := Nat.div_lt_self hpos (by norm_num : (1 : Nat) < 10)
          omega
        have hfold : List.foldl (fun a c => 10 * a + charVal c) 0
            (Nat.toDigitsCore 10 f (n / 10) []) = n / 10 := ih (n / 10) hdiv
        rw [hfold]
        show 10 * (n / 10) + charVal (Nat.digitChar (n % 10)) = n
        rw [digitChar_val (n % 10) (Nat.mod_lt n (by norm_num))]
        omega

/-- Every character produced by `Nat.toDigitsCore` over digit
accumulators is a digit. -/
theorem toDigitsCore_isDigit (fuel : Nat) :
    ∀ (n : Nat) (ds : List Char), (∀ c ∈ ds, c.isDigit = true) →
      ∀ c ∈ Nat.toDigitsCore 10 fuel n ds, c.isDigit = true := by
  induction fuel with
  | zero => intro n ds hds c hc; exact hds c hc
  | succ f ih =>
      intro n ds hds c hc
      simp only [Nat.toDigitsCore] at hc
      have hcons : ∀ c2 ∈ Nat.digitChar (n % 10) :: ds, c2.isDigit = true := by
        intro c2 hc2
        rcases List.mem_cons.mp hc2 with h | h
        · rw [h]; exact digitChar_isDigit (n % 10) (Nat.mod_lt n (by norm_num))
        · exact hds c2 h
      by_cases h0 : n / 10 = 0
      · rw [if_pos h0] at hc
        exact hcons c hc
      · rw [if_neg h0] at hc
        exact ih (n / 10) _ hcons c hc

/-- The character list underlying `Nat.repr`. -/
theorem repr_data_eq (n : Nat) : (Nat.repr n).data = Nat.toDigitsCore 10 (n + 1) n [] := rfl

/-- Two numbers with the same decimal character list are equal. -/
theorem repr_data_inj {m n : Nat} (h : (Nat.repr m).data = (Nat.repr n).data) : m = n := by
  have h1 := toDigitsCore_decode (m + 1) m (Nat.lt_succ_self m)
  have h2 := toDigitsCore_decode (n + 1) n (Nat.lt_succ_self n)
  rw [← repr_data_eq] at h1 h2
  rw [h] at h1
  rw [h1] at h2
  exact h2

/-- No character of a decimal representation is a dot. -/
theorem repr_no_dot (n : Nat) : ∀ c ∈ (Nat.repr n).data, c ≠ '.' := by
  intro c hc heq
  have hd := toDigitsCore_isDigit (n + 1) n []
    (by intro c2 hc2; exact absurd hc2 (List.not_mem_nil c2)) c
    (by rw [← repr_data_eq]; exact hc)
  rw [heq] at hd
  exact absurd hd (by decide)

/-- Cancel equal dot-free leading segments in front of a dot. -/
theorem append_dot_cancel : ∀ (a b e1 e2 : List Char),
    (∀ c ∈ a, c ≠ '.') → (∀ c ∈ b, c ≠ '.') →
    a ++ '.' :: e1 = b ++ '.' :: e2 → a = b := by
  intro a
  induction a with
  | nil =>
      intro b e1 e2 _ hb h
      cases b with
      | nil => rfl
      | cons c bs =>
          simp only [List.nil_append, List.cons_append, List.cons.injEq] at h
          exact absurd h.1.symm (hb c (List.mem_cons_self c bs))
  | cons x xs ih =>
      intro b e1 e2 ha hb h
      cases b with
      | nil =>
          simp only [List.cons_append, List.nil_append, List.cons.injEq] at h
          exact absurd h.1 (ha x (List.mem_cons_self x xs))
      | cons y bs =>
          simp only [List.cons_append, List.cons.injEq] at h
          rw [h.1, ih bs e1 e2 (fun c hc => ha c (List.mem_cons_of_mem x hc))
            (fun c hc => hb c (List.mem_cons_of_mem y hc)) h.2]

/-! ## Helper lemmas about filenames -/

/-- When the filename has a word-character extension, `replaceIdx` lays
out stem, hyphen, decimal index, dot and extension. -/
theorem replaceIdx_data (base : String) (i : Nat) (h : hasWordExt base = true) :
    (replaceIdx base i).data
      = (restRevOf base).tail.reverse
          ++ '-' :: ((Nat.repr i).data ++ '.' :: (extRevOf base).reverse) := by
  rw [hasWordExt, Bool.and_eq_true] at h
  obtain ⟨h1, h2⟩ := h
  rw [Bool.not_eq_true'] at h1
  rw [replaceIdx, if_neg (by simp [h1]), if_pos h2]
  show ((restRevOf base).tail.reverse.asString.data ++ "-".data ++ (Nat.repr i).data
      ++ ".".data ++ (extRevOf base).reverse.asString.data : List Char) = _
  show ((restRevOf base).tail.reverse ++ ['-'] ++ (Nat.repr i).data
      ++ ['.'] ++ (extRevOf base).reverse : List Char) = _
  simp

/-- When the filename has no word-character extension, `replaceIdx`
returns it unchanged, with no index inserted. -/
theorem replaceIdx_unchanged (base : String) (i : Nat) (h : hasWordExt base = false) :
    replaceIdx base i = base := by
  rw [replaceIdx]
  by_cases h1 : (extRevOf base).isEmpty = true
  · rw [if_pos h1]
  · rw [if_neg h1]
    by_cases h2 : ((restRevOf base).head? == some '.') = true
    · exfalso
      have hb : (extRevOf base).isEmpty = false := by
        cases hb2 : (extRevOf base).isEmpty
        · rfl
        · exact absurd hb2 h1
      rw [hasWordExt, hb, h2] at h
      simp at h
    · rw [if_neg h2]

/-- Distinct indices give distinct filenames whenever the base filename
has a word-character extension. -/
theorem replaceIdx_ne (base : String) (i j : Nat) (h : hasWordExt base = true)
    (hne : i ≠ j) : replaceIdx base i ≠ replaceIdx base j := by
  intro heq
  have hd := congrArg String.data heq
  rw [replaceIdx_data base i h, replaceIdx_data base j h] at hd
  have h1 := List.append_cancel_left hd
  simp only [List.cons.injEq] at h1
  have h3 := append_dot_cancel _ _ _ _ (repr_no_dot i) (repr_no_dot j) h1.2
  exact hne (repr_data_inj h3)

/-! ## Helper lemmas about the attachment locator -/

/-- Filtering the kept parts during extraction equals extracting all
parts first and filtering by `keepPart` afterwards. -/
theorem filterMap_keep_eq (cs : List StructNode) :
    cs.filterMap (fun c =>
      match c with
      | StructNode.seq _ => none
      | StructNode.part p => if keepPart p then some p else none)
    = (cs.filterMap (fun c =>
        match c with
        | StructNode.part p => some p
        | StructNode.seq _ => none)).filter keepPart := by
  induction cs with
  | nil => rfl
  | cons c rest ih =>
      cases c with
      | seq cs2 => simpa using ih
      | part p =>
          by_cases hk : keepPart p = true
          · simp [List.filterMap_cons, List.filter_cons, hk, ih]
          · simp [List.filterMap_cons, List.filter_cons, hk, ih]

/-- The output of `findAttachment` is exactly the in-order list of
depth-two leaf parts filtered by the disposition test. -/
theorem findAttachment_eq (s : List StructNode) :
    findAttachment (some s) = (s.flatMap seqLeafParts).filter keepPart := by
  induction s with
  | nil => rfl
  | cons el rest ih =>
      have step : findAttachment (some (el :: rest))
          = (match el with
             | StructNode.part _ => []
             | StructNode.seq children =>
                 children.filterMap (fun c =>
                   match c with
                   | StructNode.seq _ => none
                   | StructNode.part p => if keepPart p then some p else none))
            ++ findAttachment (some rest) := rfl
      rw [step, List.flatMap_cons, List.filter_append, ih]
      congr 1
      cases el with
      | part q => rfl
      | seq cs => exact filterMap_keep_eq cs

/-! ## Claim theorems -/

/-- Claim C1, counterexample: a policy whose failure-details array is
present but empty yields zero flattened records, not the single
detail-less record the claim (max 1 n with n = 0) requires. -/
theorem C1_counterexample :
    (processReport (mkReport ⟨sampleMeta, [⟨samplePD, sampleSummary, some []⟩]⟩
        "report.json.gz")).processed.length = 0
  ∧ max 1 (List.length ([] : List PolicyFailureDetail)) = 1 := ⟨rfl, rfl⟩

/-- Claim C1 (amended): for each policy, `processReport` emits one record
per failure-detail entry when the failure-details array is present (so
zero records when it is present but empty), and exactly one detail-less
record when the array is absent; the total is the sum of these per-policy
counts. -/
theorem C1_amended (r : IReport) (fn : String) :
    (processReport (mkReport r fn)).processed.length
      = (r.policies.map (fun p =>
          match p.failureDetails with
          | some ds => ds.length
          | none => 1)).sum := by
  have h : (processReport (mkReport r fn)).processed
      = r.policies.flatMap (policyRecords r.metadata) := rfl
  rw [h, List.length_flatMap]
  have h2 : (List.length ∘ policyRecords r.metadata)
      = fun p => match p.failureDetails with
        | some ds => ds.length
        | none => 1 := by
    funext p
    exact policyRecords_length _ _
  rw [h2]

/-- Claim C2, counterexample: for an attachment named "report.json" the
stripping in `searchIMAP` leaves the extensionless base "report", on
which the replace of `writeReports` never matches, so every record of
the attachment is persisted under the same name "report" — records at
the distinct indices 0 and 1 collide, no index and no extension is
appended, refuting both the naming formula and pairwise distinctness. -/
theorem C2_counterexample :
    stripExt "report.json" = "report"
  ∧ replaceIdx (stripExt "report.json") 0 = "report"
  ∧ replaceIdx (stripExt "report.json") 1 = "report"
  ∧ replaceIdx (stripExt "report.json") 0 = replaceIdx (stripExt "report.json") 1 :=
  ⟨rfl, rfl, rfl, rfl⟩

/-- Claim C2 (amended): `writeReports` names the record at index i by
applying `replaceIdx` to the already-stripped filename: when that
filename still ends in a dot followed by word characters, its final
extension becomes `-i.ext` and distinct indices give pairwise distinct
names; when it has no such trailing extension the name is the filename
unchanged for every index, so all records of the attachment share one
name. -/
theorem C2_amended (base : String) (i j : Nat) (r : IReport) (fn : String) :
    (hasWordExt base = false → replaceIdx base i = base)
  ∧ (hasWordExt base = true → i ≠ j → replaceIdx base i ≠ replaceIdx base j)
  ∧ (writeReports (mkReport r fn)).2.map Prod.fst
      = (List.range ((processReport (mkReport r fn)).processed.length)).map
          (replaceIdx fn) := by
  refine ⟨fun h => replaceIdx_unchanged base i h,
          fun h hne => replaceIdx_ne base i j h hne, ?_⟩
  simp only [writeReports]
  rw [List.map_map, ← List.enum_map_fst ((processReport (mkReport r fn)).processed),
    List.map_map]
  rfl

/-- Witness for C2: a filename with an extension yields distinct names
at indices 0 and 1, an extensionless one is left unchanged. -/
theorem C2_amended_witness :
    replaceIdx "report" 0 = "report"
  ∧ replaceIdx "report.json" 0 ≠ replaceIdx "report.json" 1 :=
  ⟨(C2_amended "report" 0 1 sampleReport "x.json").1 (by decide),
   (C2_amended "report.json" 0 1 sampleReport "x.json").2.1 (by decide) (by decide)⟩

/-- Claim C7: every record emitted by the flattener carries a summary
whose failure count has been deleted; the
total-failure-session-count field never appears in output. -/
theorem C7_no_failure_count (r : IReport) (fn : String) (rec : ProcessedReport)
    (h : rec ∈ (processReport (mkReport r fn)).processed) :
    rec.policies.summary.failureCount = none := by
  have h2 : rec ∈ r.policies.flatMap (policyRecords r.metadata) := h
  rw [List.mem_flatMap] at h2
  obtain ⟨p, _, hrec⟩ := h2
  cases hd : p.failureDetails with
  | some ds =>
      rw [policyRecords, hd] at hrec
      rw [List.mem_map] at hrec
      obtain ⟨d, _, he⟩ := hrec
      rw [← he]
      rfl
  | none =>
      rw [policyRecords, hd, List.mem_singleton] at hrec
      rw [hrec]
      rfl

/-- Witness for C7 at a concrete report. -/
theorem C7_no_failure_count_witness :
    sampleProcessed.policies.summary.failureCount = none :=
  C7_no_failure_count sampleReport "report.json.gz" sampleProcessed (by decide)

/-- Claim C8: the flattened list is the in-order concatenation of each
policy's records, records of policy i preceding those of policy i+1 and
per-policy records following the source array order; in particular a
report with two policies, the first carrying two failure details and the
second none, flattens to exactly the three records in order. -/
theorem C8_order (r : IReport) (fn : String) :
    (processReport (mkReport r fn)).processed
      = r.policies.flatMap (policyRecords r.metadata)
  ∧ ∀ (meta : ReportMetadata) (pd1 pd2 : PolicyDetails) (s1 s2 : PolicySummary)
      (d1 d2 : PolicyFailureDetail) (fn2 : String),
      (processReport (mkReport
          ⟨meta, [⟨pd1, s1, some [d1, d2]⟩, ⟨pd2, s2, none⟩]⟩ fn2)).processed
        = [⟨⟨pd1, deleteSummary s1, some d1⟩, meta⟩,
           ⟨⟨pd1, deleteSummary s1, some d2⟩, meta⟩,
           ⟨⟨pd2, deleteSummary s2, none⟩, meta⟩] := by
  refine ⟨rfl, ?_⟩
  intro meta pd1 pd2 s1 s2 d1 d2 fn2
  rfl

/-- Claim C9: flattening is deterministic; two fresh `Report` objects
built from equal parsed input produce equal record sequences, whatever
the attachment filenames were. -/
theorem C9_deterministic (r1 r2 : IReport) (f1 f2 : String) (h : r1 = r2) :
    (processReport (mkReport r1 f1)).processed
      = (processReport (mkReport r2 f2)).processed := by
  subst h
  rfl

/-- Witness for C9 at a concrete report. -/
theorem C9_deterministic_witness :
    (processReport (mkReport sampleReport "a.json")).processed
      = (processReport (mkReport sampleReport "b.json")).processed :=
  C9_deterministic sampleReport sampleReport "a.json" "b.json" rfl

/-- Claim C10: `writeReports` is not idempotent. Each call re-runs
`processReport`, which appends every flattened record to the persistent
`processed` list without clearing it, so after k calls the list holds k
concatenated copies of the record list, and the second call issues
writes for the doubled list, indices 0 through 2n-1, under the index-
shifted names. -/
theorem C10_not_idempotent (r : IReport) (fn : String) (k : Nat) :
    (processReport^[k] (mkReport r fn)).processed
      = (List.replicate k (r.policies.flatMap (policyRecords r.metadata))).flatten
  ∧ (writeReports (mkReport r fn)).2
      = (r.policies.flatMap (policyRecords r.metadata)).enum.map
          (fun p => (replaceIdx fn p.1, p.2))
  ∧ (writeReports (writeReports (mkReport r fn)).1).2
      = ((r.policies.flatMap (policyRecords r.metadata))
          ++ r.policies.flatMap (policyRecords r.metadata)).enum.map
          (fun p => (replaceIdx fn p.1, p.2)) := by
  have hp1 : processReport (mkReport r fn)
      = ⟨r.metadata, r.policies.map deleteFailureCount, fn,
         (List.replicate 1 (r.policies.flatMap (policyRecords r.metadata))).flatten⟩ := by
    have h := processReport_iterate r fn 1
    rwa [Function.iterate_one] at h
  have hp2 : processReport (processReport (mkReport r fn))
      = ⟨r.metadata, r.policies.map deleteFailureCount, fn,
         (List.replicate 2 (r.policies.flatMap (policyRecords r.metadata))).flatten⟩ := by
    have h := processReport_iterate r fn 2
    rwa [Function.iterate_succ_apply, Function.iterate_one] at h
  refine ⟨?_, ?_, ?_⟩
  · rw [processReport_iterate]
  · simp only [writeReports, hp1]
    simp [List.replicate]
  · simp only [writeReports]
    rw [hp2]
    simp [List.replicate]

/-! ## Attachment locator claims -/

/-- Claim C3, behaviour of the code at the failing input: the indexOf
result is used as a truthiness test, so a part whose disposition type is
"inline" (index 0) is excluded while a part with any disposition type
outside the list (index -1) is included; only "attachment" behaves as
the claim says. -/
theorem C3_code_divergence :
    findAttachment (some [StructNode.seq
        [StructNode.part ⟨2, some ⟨"inline"⟩⟩,
         StructNode.part ⟨3, some ⟨"related"⟩⟩,
         StructNode.part attachPart]])
      = [⟨3, some ⟨"related"⟩⟩, attachPart]
  ∧ keepPart ⟨2, some ⟨"inline"⟩⟩ = false
  ∧ keepPart ⟨3, some ⟨"related"⟩⟩ = true := ⟨rfl, rfl, rfl⟩

/-- Claim C4, counterexample: `findAttachment` does not recurse. A leaf
part carrying an attachment disposition is missed both when it sits at
the top level of the structure and when it sits below two levels of
nesting, even though it passes the disposition test. -/
theorem C4_counterexample :
    keepPart attachPart = true
  ∧ findAttachment (some [StructNode.part attachPart]) = []
  ∧ findAttachment (some [StructNode.seq
      [StructNode.seq [StructNode.part attachPart]]]) = [] := ⟨rfl, rfl, rfl⟩

/-- Claim C4 (amended): `findAttachment` does not recurse; its output is
exactly the depth-two leaf parts — the immediate part items of the
top-level sub-sequences, taken in structure order — filtered by the
disposition test `keepPart`. In particular every returned part sits at
depth exactly two, and top-level leaves and parts nested any deeper are
never returned. -/
theorem C4_amended (s : List StructNode) :
    findAttachment (some s) = (s.flatMap seqLeafParts).filter keepPart
  ∧ ∀ p : MimePart, p ∈ findAttachment (some s) →
      ∃ cs, StructNode.seq cs ∈ s ∧ StructNode.part p ∈ cs := by
  refine ⟨findAttachment_eq s, ?_⟩
  intro p h
  have h2 : p ∈ s.flatMap (fun el =>
      match el with
      | StructNode.part _ => []
      | StructNode.seq children =>
          children.filterMap (fun c =>
            match c with
            | StructNode.seq _ => none
            | StructNode.part q => if keepPart q then some q else none)) := h
  rw [List.mem_flatMap] at h2
  obtain ⟨el, hel, hmem⟩ := h2
  cases el with
  | part q => exact absurd hmem (List.not_mem_nil p)
  | seq cs =>
      rw [List.mem_filterMap] at hmem
      obtain ⟨c, hc, hfc⟩ := hmem
      cases c with
      | seq _ => exact absurd hfc (by simp)
      | part q =>
          refine ⟨cs, hel, ?_⟩
          have hfc2 : (if keepPart q = true then some q else none) = some p := hfc
          by_cases hk : keepPart q = true
          · rw [if_pos hk] at hfc2
            rw [← Option.some_inj.mp hfc2]
            exact hc
          · rw [if_neg hk] at hfc2
            exact absurd hfc2 (by simp)

/-- Witness for C4 at a concrete two-level structure. -/
theorem C4_amended_witness :
    ∃ cs, StructNode.seq cs ∈ [StructNode.seq [StructNode.part attachPart]]
      ∧ StructNode.part attachPart ∈ cs :=
  (C4_amended [StructNode.seq [StructNode.part attachPart]]).2 attachPart
    (by
      have e : findAttachment (some [StructNode.seq [StructNode.part attachPart]])
          = [attachPart] := rfl
      rw [e]
      exact List.mem_singleton.mpr rfl)

/-! ## Decode-chain claims -/

/-- Claim C5, counterexample: for subtype "GZIP" the spec condition (a
case-insensitive substring test) holds, yet the code pipes no gunzip
stage, because `search(/gzip/)` is case-sensitive. -/
theorem C5_counterexample :
    specGzipCondition "GZIP" = true
  ∧ Stage.gunzip ∉ buildStages "base64" "GZIP" := by
  refine ⟨rfl, ?_⟩
  decide

/-- Claim C5 (amended): the chain is always a sublist of
[base64Decode, gunzip] (so base64 decoding always precedes gunzip); the
base64 stage is piped exactly when the lowercased encoding equals
"base64"; the gunzip stage is piped exactly when the subtype contains
"gzip" as a case-sensitive substring; with neither condition the chain
is empty. -/
theorem C5_amended (encoding subtype : String) :
    List.Sublist (buildStages encoding subtype) [Stage.base64Decode, Stage.gunzip]
  ∧ (Stage.base64Decode ∈ buildStages encoding subtype ↔ jsToLower encoding = "base64")
  ∧ (Stage.gunzip ∈ buildStages encoding subtype ↔ hasSubstr subtype "gzip" = true)
  ∧ (jsToLower encoding ≠ "base64" ∧ hasSubstr subtype "gzip" = false →
      buildStages encoding subtype = []) := by
  by_cases h1 : jsToLower encoding = "base64" <;>
    by_cases h2 : hasSubstr subtype "gzip" = true <;>
      refine ⟨?_, ?_, ?_, ?_⟩ <;> simp [buildStages, h1, h2]

/-- Witness for C5 with neither stage condition holding. -/
theorem C5_amended_witness : buildStages "7bit" "tlsrpt" = [] :=
  (C5_amended "7bit" "tlsrpt").2.2.2 ⟨by decide, by decide⟩

/-! ## Error-propagation claim -/

/-- Claim C6, behaviour of the code at the failing input: with a failing
first attachment and a valid sibling, the handler chain aborts with the
uncaught error and the sibling produces nothing, even though the sibling
alone succeeds; the spec-modelled isolated semantics instead keeps the
sibling's report. -/
theorem C6_code_divergence :
    processMessageAttachments [badAttachment, goodAttachment]
      = Except.error "unexpected token in JSON"
  ∧ processMessageAttachments [goodAttachment]
      = Except.ok [mkReport sampleReport "good"]
  ∧ specIsolatedResults [badAttachment, goodAttachment]
      = [mkReport sampleReport "good"] := ⟨rfl, rfl, rfl⟩

end TlsRpt
